import Mathlib

/-!
Verification development for the Lectioskema repository.

The development shallowly embeds the two precision-sensitive components of
the repository — the schedule-brick extraction engine
(`src/lectio_sync/html_parser.py`) and the RFC5545 calendar serializer
(`src/lectio_sync/ical_writer.py`) — as executable Lean definitions over
`List Char` strings, and proves properties of those definitions.

Modelling conventions:
* Python `str` is modelled as `List Char` (Unicode code points, as in CPython).
* Python `datetime.date` is a `Date` record of year/month/day; date ordering
  and `timedelta` arithmetic go through a proleptic-Gregorian day number
  (`Date.toDays` / `Date.ofDays`), which is exactly the ordering and
  arithmetic of `datetime.date`.
* Timezone-aware datetimes produced by the parser are local wall-clock
  values in one fixed timezone; they are modelled as `LDT` (a date plus a
  minute-of-day).  Comparison and day arithmetic on aware datetimes sharing
  one tzinfo coincide with wall-clock comparison, which is what `LDT` gives.
* Unicode NFC normalization (`unicodedata.normalize("NFC", ·)`) is modelled
  as the identity on the embedded character sequences.
* `None`-able values become `Option`; uncaught `ValueError` (invalid
  `date(...)`/`time(...)` construction, unknown timezone) makes the embedded
  function return `none`.
-/

namespace LectioSync

/-- Python strings are modelled as lists of Unicode characters. -/
abbrev Str := List Char

/-- Characters stripped by Python's `str.strip()` / matched by `\s`
(the ASCII whitespace characters; the further Unicode space characters do
not occur in the texts considered here). -/
def isPySpace (c : Char) : Bool :=
  c = ' ' || c = '\t' || c = '\n' || c = '\r' || c = '\x0b' || c = '\x0c'

/-- Python `str.lstrip()`. -/
def lstrip (l : Str) : Str := l.dropWhile isPySpace

/-- Python `str.rstrip()`. -/
def rstrip (l : Str) : Str := ((l.reverse).dropWhile isPySpace).reverse

/-- Python `str.strip()`. -/
def pyStrip (l : Str) : Str := rstrip (lstrip l)

/-- Python `str.lower()` on one character (ASCII plus the Latin-1 uppercase
letters, which covers the Danish vocabulary appearing in the sources). -/
def pyLowerChar (c : Char) : Char :=
  if 65 ≤ c.toNat ∧ c.toNat ≤ 90 then Char.ofNat (c.toNat + 32)
  else if 192 ≤ c.toNat ∧ c.toNat ≤ 222 ∧ c.toNat ≠ 215 then Char.ofNat (c.toNat + 32)
  else c

/-- Python `str.upper()` on one character (same character ranges). -/
def pyUpperChar (c : Char) : Char :=
  if 97 ≤ c.toNat ∧ c.toNat ≤ 122 then Char.ofNat (c.toNat - 32)
  else if 224 ≤ c.toNat ∧ c.toNat ≤ 254 ∧ c.toNat ≠ 247 then Char.ofNat (c.toNat - 32)
  else c

/-- Python `str.lower()`. -/
def pyLower (l : Str) : Str := l.map pyLowerChar

/-- Python `str.upper()`. -/
def pyUpper (l : Str) : Str := l.map pyUpperChar

/-- Python `s.replace(t, r)` for a single-character needle `t`:
every occurrence of `t` is replaced by `r`. -/
def replOne (t : Char) (r : Str) : Str → Str
  | [] => []
  | c :: cs => if c = t then r ++ replOne t r cs else c :: replOne t r cs

/-- Python `s.replace("\r\n", "\n")`: left-to-right, non-overlapping. -/
def replaceCRLF : Str → Str
  | [] => []
  | [c] => [c]
  | c1 :: c2 :: rest =>
    if c1 = '\r' ∧ c2 = '\n' then '\n' :: replaceCRLF rest
    else c1 :: replaceCRLF (c2 :: rest)

/-- Python `s.split("\n")` (note: splitting the empty string gives `[""]`). -/
def splitOnNl : Str → List Str
  | [] => [[]]
  | '\n' :: rest => [] :: splitOnNl rest
  | c :: rest =>
    match splitOnNl rest with
    | [] => [[c]]
    | s :: ss => (c :: s) :: ss

/-- Normalization of line terminators as done inline by the sources:
`.replace("\r\n", "\n").replace("\r", "\n")`. -/
def crNormalize (l : Str) : Str := replOne '\r' ['\n'] (replaceCRLF l)

/-! ### Dates and wall-clock datetimes -/

/-- A calendar date, as `datetime.date`. -/
structure Date where
  year : Int
  month : Int
  day : Int
deriving DecidableEq, Repr

/-- Proleptic-Gregorian day number of a date (days since 1970-01-01).
This realizes the ordering and day arithmetic of `datetime.date`. -/
def Date.toDays (dt : Date) : Int :=
  let y := if dt.month ≤ 2 then dt.year - 1 else dt.year
  let era := Int.fdiv y 400
  let yoe := y - era * 400
  let mp := if dt.month > 2 then dt.month - 3 else dt.month + 9
  let doy := (153 * mp + 2) / 5 + dt.day - 1
  let doe := yoe * 365 + yoe / 4 - yoe / 100 + doy
  era * 146097 + doe - 719468

/-- Inverse of `Date.toDays` on valid dates. -/
def Date.ofDays (z0 : Int) : Date :=
  let z := z0 + 719468
  let era := Int.fdiv z 146097
  let doe := z - era * 146097
  let yoe := (doe - doe / 1460 + doe / 36524 - doe / 146096) / 365
  let y := yoe + era * 400
  let doy := doe - (365 * yoe + yoe / 4 - yoe / 100)
  let mp := (5 * doy + 2) / 153
  let d := doy - (153 * mp + 2) / 5 + 1
  let m := if mp < 10 then mp + 3 else mp - 9
  ⟨if m ≤ 2 then y + 1 else y, m, d⟩

/-- Python `some_date + timedelta(days=n)`. -/
def Date.addDays (dt : Date) (n : Int) : Date := Date.ofDays (dt.toDays + n)

/-- Leap-year test of the Gregorian calendar (as `calendar.isleap`). -/
def isLeap (y : Int) : Bool := (y % 4 = 0 && y % 100 ≠ 0) || y % 400 = 0

/-- Number of days of a month, used by the `datetime.date` validity check. -/
def daysInMonth (y m : Int) : Int :=
  if m = 2 then (if isLeap y then 29 else 28)
  else if m = 4 ∨ m = 6 ∨ m = 9 ∨ m = 11 then 30
  else 31

/-- Python `date(year, month, day)`: `none` models the `ValueError` raised
on an invalid combination. -/
def mkDate (y m d : Int) : Option Date :=
  if 1 ≤ y ∧ y ≤ 9999 ∧ 1 ≤ m ∧ m ≤ 12 ∧ 1 ≤ d ∧ d ≤ daysInMonth y m then
    some ⟨y, m, d⟩
  else none

/-- Python `time(hour, minute)`: `none` models the `ValueError` on
out-of-range components. -/
def mkTime (h m : Int) : Option Unit :=
  if 0 ≤ h ∧ h ≤ 23 ∧ 0 ≤ m ∧ m ≤ 59 then some () else none

/-- A timezone-aware local wall-clock datetime (tzinfo fixed): the events
built by the parser carry whole minutes (times are parsed as `HH:MM`),
so the time of day is a minute count. -/
structure LDT where
  date : Date
  minute_of_day : Int
deriving DecidableEq, Repr

/-- Total minute count realizing the comparison of two aware datetimes
that share one tzinfo (wall-clock order). -/
def LDT.absMinutes (t : LDT) : Int := t.date.toDays * 1440 + t.minute_of_day

/-- Python `dt + timedelta(days=1)` on a datetime. -/
def LDT.addOneDay (t : LDT) : LDT := ⟨t.date.addDays 1, t.minute_of_day⟩

/-! ### Serializer: `ical_writer.py` -/

/-- A UTC generation timestamp, as passed for `DTSTAMP` (the
`astimezone(timezone.utc)` step is a no-op in this model: timestamps are
already UTC). -/
structure UtcTimestamp where
  year : Int
  month : Int
  day : Int
  hour : Int
  minute : Int
  second : Int
deriving DecidableEq, Repr

/-- Decimal digit character. -/
def digitChar (n : Nat) : Char := Char.ofNat (48 + n % 10)

/-- Zero-padded two-digit decimal rendering (`%m`, `%d`, `%H`, `%M`, `%S`). -/
def pad2 (n : Int) : Str := [digitChar ((n.toNat / 10) % 10), digitChar (n.toNat % 10)]

/-- Zero-padded four-digit decimal rendering (`%Y`). -/
def pad4 (n : Int) : Str :=
  [digitChar ((n.toNat / 1000) % 10), digitChar ((n.toNat / 100) % 10),
   digitChar ((n.toNat / 10) % 10), digitChar (n.toNat % 10)]

/-- Source `_format_date`: `d.strftime("%Y%m%d")`. -/
def format_date (d : Date) : Str := pad4 d.year ++ pad2 d.month ++ pad2 d.day

/-- Source `_format_local`: `dt.strftime("%Y%m%dT%H%M%S")` — floating local
time, seconds included (always `00`: parsed times carry whole minutes). -/
def format_local (t : LDT) : Str :=
  format_date t.date ++ 'T' :: (pad2 (t.minute_of_day / 60) ++ pad2 (t.minute_of_day % 60) ++ pad2 0)

/-- Source `_dtstamp_utc`: the explicitly supplied timestamp if any,
otherwise the ambient clock `now`, rendered as `%Y%m%dT%H%M%SZ`. -/
def dtstamp_utc (now : UtcTimestamp) (dtstamp : Option UtcTimestamp) : Str :=
  let ts := dtstamp.getD now
  pad4 ts.year ++ pad2 ts.month ++ pad2 ts.day ++ 'T' ::
    (pad2 ts.hour ++ pad2 ts.minute ++ pad2 ts.second ++ ['Z'])

/-- Source `_escape_ical_value`: RFC5545 TEXT escaping, in source order —
backslash, semicolon, comma, then newline normalization and escaping. -/
def escape_ical_value (value : Str) : Str :=
  let v1 := replOne '\\' ['\\', '\\'] value
  let v2 := replOne ';' ['\\', ';'] v1
  let v3 := replOne ',' ['\\', ','] v2
  let v4 := replOne '\r' ['\n'] (replaceCRLF v3)
  replOne '\n' ['\\', 'n'] v4

/-- UTF-8 length in octets of one character (`len(ch.encode("utf-8"))`). -/
def utf8Len (c : Char) : Nat :=
  if c.toNat < 0x80 then 1
  else if c.toNat < 0x800 then 2
  else if c.toNat < 0x10000 then 3
  else 4

/-- UTF-8 length in octets of a string (`len(s.encode("utf-8"))`). -/
def bytesLen (l : Str) : Nat := (l.map utf8Len).sum

/-- The character loop of `_fold_75_octets`: state is the flushed segments
`out`, the current segment, and the octet limit of the current segment
(75 for the first segment, 74 afterwards). -/
def fold_loop : Str → List Str → Str → Nat → (List Str × Str)
  | [], out, current, _ => (out, current)
  | ch :: rest, out, current, limit =>
    if bytesLen current + utf8Len ch > limit then
      fold_loop rest (out ++ [current]) [ch] 74
    else
      fold_loop rest out (current ++ [ch]) limit

/-- Physical segments produced by `_fold_75_octets` (the `out_lines` list of
the source, with the early return for short lines as a one-segment list). -/
def fold75_segments (line : Str) : List Str :=
  if bytesLen line ≤ 75 then [line]
  else
    let p := fold_loop line [] [] 75
    let out_lines := if p.2 ≠ [] then p.1 ++ [p.2] else p.1
    if out_lines = [] then [line] else out_lines

/-- Source `_fold_75_octets`: segments joined by CRLF plus one space. -/
def fold_75_octets (line : Str) : Str :=
  List.intercalate ['\r', '\n', ' '] (fold75_segments line)

/-- Source `_prop`: `NAME:value`, folded. -/
def prop (nm value : Str) : Str := fold_75_octets (nm ++ ':' :: value)

/-- Source `_prop_param`: `NAME;PARAM:value`, folded. -/
def prop_param (nm param value : Str) : Str :=
  fold_75_octets (nm ++ ';' :: (param ++ ':' :: value))

/-- Source `_single_line`: newline-normalize, join the lines with spaces,
strip. -/
def single_line (text : Str) : Str :=
  pyStrip (List.intercalate [' '] (splitOnNl (crNormalize text)))

/-- The event record of `event_model.py` (`LectioEvent`). -/
structure LectioEvent where
  uid : Str
  title : Str
  start : Option LDT
  «end» : Option LDT
  all_day_date : Option Date
  location : Str
  description : Str
  status : Str
deriving DecidableEq, Repr

/-- Property `LectioEvent.is_all_day`. -/
def LectioEvent.is_all_day (ev : LectioEvent) : Bool := ev.all_day_date.isSome

/-- Status text examined by the serializer:
`_single_line(ev.status or "CONFIRMED").upper()`. -/
def event_status_value (ev : LectioEvent) : Str :=
  pyUpper (single_line (if ev.status = [] then ("CONFIRMED".toList) else ev.status))

/-- The lines appended for one event by the loop body of `build_icalendar`
(`BEGIN:VEVENT` through `END:VEVENT`, with the `continue` early exits). -/
def event_lines (stamp : Str) (ev : LectioEvent) : List Str :=
  let head :=
    [("BEGIN:VEVENT".toList),
     prop ("UID".toList) (single_line ev.uid),
     prop ("DTSTAMP".toList) stamp,
     prop ("SUMMARY".toList) (escape_ical_value (single_line ev.title))]
  let head := head ++
    (if event_status_value ev = ("CANCELLED".toList) then
      [prop ("STATUS".toList) ("CANCELLED".toList)]
     else [])
  let tail :=
    (let location := escape_ical_value (single_line ev.location)
     if location ≠ [] then [prop ("LOCATION".toList) location] else []) ++
    [prop ("DESCRIPTION".toList) (escape_ical_value (pyStrip ev.description)),
     ("END:VEVENT".toList)]
  if ev.is_all_day then
    match ev.all_day_date with
    | none => head ++ [("END:VEVENT".toList)]
    | some d0 =>
      let d := format_date d0
      head ++ [prop_param ("DTSTART".toList) ("VALUE=DATE".toList) d,
               prop_param ("DTEND".toList) ("VALUE=DATE".toList) d] ++ tail
  else
    match ev.start, ev.«end» with
    | some s, some e =>
      head ++ [prop ("DTSTART".toList) (format_local s),
               prop ("DTEND".toList) (format_local e)] ++ tail
    | _, _ => head ++ [("END:VEVENT".toList)]

/-- The full `lines` list built by `build_icalendar` before joining. -/
def build_icalendar_lines (now : UtcTimestamp) (events : List LectioEvent)
    (dtstamp : Option UtcTimestamp) : List Str :=
  let stamp := dtstamp_utc now dtstamp
  ("BEGIN:VCALENDAR".toList) :: ("VERSION:2.0".toList) ::
    ("PRODID:-//LectioParser//Custom//EN".toList) ::
    (events.flatMap (event_lines stamp) ++ [("END:VCALENDAR".toList)])

/-- Source `build_icalendar`: the lines joined by CRLF, with a trailing
CRLF.  The ambient clock `now` is an explicit parameter; the source reads
it only when no `dtstamp` argument is supplied. -/
def build_icalendar (now : UtcTimestamp) (events : List LectioEvent)
    (dtstamp : Option UtcTimestamp) : Str :=
  List.intercalate ['\r', '\n'] (build_icalendar_lines now events dtstamp) ++ ['\r', '\n']

/-- Python's substring test `pat in hay`. -/
def containsSubstr (pat : Str) : Str → Bool
  | [] => pat.isEmpty
  | c :: rest => pat.isPrefixOf (c :: rest) || containsSubstr pat rest

/-! ### Text normalizer: `_normalize_text` -/

/-- State machine realizing `re.sub(r"<[^>]+>", "", text)`: on `'<'` the
following characters are buffered (reversed) until a `'>'` closes a
non-empty tag, which is then dropped; `"<>"` and an unclosed `'<'` are kept
literally, exactly as the regex leaves them unmatched. -/
def stripTagsAux : Str → Option Str → Str
  | [], none => []
  | [], some pending => '<' :: pending.reverse
  | c :: rest, none =>
    if c = '<' then stripTagsAux rest (some []) else c :: stripTagsAux rest none
  | c :: rest, some pending =>
    if c = '>' then
      if pending = [] then '<' :: '>' :: stripTagsAux rest none
      else stripTagsAux rest none
    else stripTagsAux rest (some (c :: pending))

/-- Markup stripping `re.sub(r"<[^>]+>", "", text)`. -/
def stripTags (l : Str) : Str := stripTagsAux l none

/-- Python `s.split(sep)` for a one-character separator. -/
def splitOnChar (sep : Char) : Str → List Str
  | [] => [[]]
  | c :: rest =>
    if c = sep then [] :: splitOnChar sep rest
    else
      match splitOnChar sep rest with
      | [] => [[c]]
      | s :: ss => (c :: s) :: ss

/-- The per-line cleanup loop of `_normalize_text`: strip each line, drop a
leading `"- "` bullet, and collapse runs of blank lines (tracked by the
`previous_blank` flag). -/
def cleanLines : List Str → Bool → List Str
  | [], _ => []
  | ln :: rest, previous_blank =>
    let stripped := pyStrip ln
    let stripped := if ("- ".toList).isPrefixOf stripped then stripped.drop 2 else stripped
    if stripped = [] then
      if previous_blank then cleanLines rest true
      else [] :: cleanLines rest true
    else stripped :: cleanLines rest false

/-- Source `_normalize_text`: trim, unify line terminators, strip markup,
right-trim and de-bullet each line, collapse blank runs, drop outer blank
lines.  Unicode NFC normalization is modelled as the identity. -/
def normalize_text (raw : Str) : Str :=
  let text := pyStrip raw
  let text := crNormalize text
  let text := stripTags text
  let lines := (splitOnNl text).map rstrip
  let cleaned := cleanLines lines false
  let cleaned := ((cleaned.dropWhile (· = [])).reverse.dropWhile (· = [])).reverse
  List.intercalate ['\n'] cleaned

/-! ### Date/time line matcher: `_DATE_LINE_RE` -/

/-- Decimal digit test (`\d`). -/
def isDigitC (c : Char) : Bool := 48 ≤ c.toNat && c.toNat ≤ 57

/-- Value of a decimal digit character. -/
def digitVal (c : Char) : Int := (c.toNat : Int) - 48

/-- Matches `\d{1,2}` immediately followed by the literal `sep`, returning
the number and the rest.  The greedy two-digit attempt is tried first; the
regex can only backtrack to one digit when the separator follows it, which
is what the second branch checks. -/
def matchNum2or1 (sep : Char) : Str → Option (Int × Str)
  | c1 :: c2 :: c3 :: rest =>
    if isDigitC c1 && isDigitC c2 && c3 = sep then
      some (10 * digitVal c1 + digitVal c2, rest)
    else if isDigitC c1 && c2 = sep then some (digitVal c1, c3 :: rest)
    else none
  | [c1, c2] => if isDigitC c1 && c2 = sep then some (digitVal c1, []) else none
  | _ => none

/-- Matches `\d{4}` (the year group). -/
def match4Digits : Str → Option (Int × Str)
  | c1 :: c2 :: c3 :: c4 :: rest =>
    if isDigitC c1 && isDigitC c2 && isDigitC c3 && isDigitC c4 then
      some (1000 * digitVal c1 + 100 * digitVal c2 + 10 * digitVal c3 + digitVal c4, rest)
    else none
  | _ => none

/-- Matches `\s+` (greedy; the tokens following it in the pattern never
start with whitespace, so consuming the maximal run is exact). -/
def matchWs1 : Str → Option Str
  | [] => none
  | c :: rest => if isPySpace c then some (rest.dropWhile isPySpace) else none

/-- Case-insensitive literal word match (the word is given lowercased). -/
def stripCI (w : Str) (l : Str) : Option Str :=
  if pyLower (l.take w.length) = w then some (l.drop w.length) else none

/-- Matches `\d{2}:\d{2}` (a clock time group; exactly two digits each). -/
def matchHM : Str → Option (Int × Int × Str)
  | c1 :: c2 :: c3 :: c4 :: c5 :: rest =>
    if isDigitC c1 && isDigitC c2 && c3 = ':' && isDigitC c4 && isDigitC c5 then
      some (10 * digitVal c1 + digitVal c2, 10 * digitVal c4 + digitVal c5, rest)
    else none
  | _ => none

/-- The alternatives of the date line's tail. -/
inductive TimeSpec where
  | allDay : TimeSpec
  | timed (sh sm eh em : Int) : TimeSpec
deriving DecidableEq, Repr

/-- Captured groups of one `_DATE_LINE_RE` match. -/
structure DateLineMatch where
  day : Int
  month : Int
  year : Int
  spec : TimeSpec
deriving DecidableEq, Repr

/-- Matches `Hele\s+dagen|All\s+day` (case-insensitive). -/
def matchAllDayTail (l : Str) : Bool :=
  (match stripCI ("hele".toList) l with
   | some r1 =>
     match matchWs1 r1 with
     | some r2 => (stripCI ("dagen".toList) r2).isSome
     | none => false
   | none => false) ||
  (match stripCI ("all".toList) l with
   | some r1 =>
     match matchWs1 r1 with
     | some r2 => (stripCI ("day".toList) r2).isSome
     | none => false
   | none => false)

/-- Matches `\d{2}:\d{2}\s+til\s+\d{2}:\d{2}` (case-insensitive `til`). -/
def matchTimedTail (l : Str) : Option (Int × Int × Int × Int) := do
  let (sh, sm, r1) ← matchHM l
  let r2 ← matchWs1 r1
  let r3 ← stripCI ("til".toList) r2
  let r4 ← matchWs1 r3
  let (eh, em, _) ← matchHM r4
  pure (sh, sm, eh, em)

/-- Attempts a `_DATE_LINE_RE` match anchored at the start of `l`:
`D/M-YYYY` then whitespace then either the all-day marker or a
`HH:MM til HH:MM` span (the all-day alternative is tried first, as in the
pattern). -/
def matchDateLineAt (l : Str) : Option DateLineMatch := do
  let (day, r1) ← matchNum2or1 '/' l
  let (month, r2) ← matchNum2or1 '-' r1
  let (year, r3) ← match4Digits r2
  let r4 ← matchWs1 r3
  if matchAllDayTail r4 then
    pure ⟨day, month, year, TimeSpec.allDay⟩
  else
    match matchTimedTail r4 with
    | some (sh, sm, eh, em) => pure ⟨day, month, year, TimeSpec.timed sh sm eh em⟩
    | none => none

/-- Python `re.search`: try each start position, leftmost first. -/
def searchDateLine : Str → Option DateLineMatch
  | [] => none
  | c :: rest =>
    match matchDateLineAt (c :: rest) with
    | some m => some m
    | none => searchDateLine rest

/-- Source `_line_looks_like_datetime`. -/
def line_looks_like_datetime (line : Str) : Bool :=
  (searchDateLine (pyStrip line)).isSome

/-! ### Tooltip parsing: `_parse_tooltip` -/

/-- Result record of `_parse_tooltip` (`_TooltipParsed`). -/
structure TooltipParsed where
  title : Str
  start : Option LDT
  «end» : Option LDT
  all_day_date : Option Date
  room : Str
  description : Str
  effective_date : Option Date
deriving DecidableEq, Repr

/-- Source `_first_meaningful_line`: first line with non-blank content,
stripped. -/
def first_meaningful_line (lines : List Str) : Option Str :=
  match lines.find? (fun ln => pyStrip ln ≠ []) with
  | some ln => some (pyStrip ln)
  | none => none

/-- Text after the first colon of a line, stripped — the value extraction
`ln.split(":", 1)[1].strip()` shared by the room and teacher lookups. -/
def afterFirstColon (ln : Str) : Str := pyStrip ((ln.dropWhile (· ≠ ':')).drop 1)

/-- Room lookup of `_parse_tooltip`: first line whose stripped, lowered
form starts with `lokale:`; its value is the text after the first colon. -/
def room_of_lines (lines : List Str) : Str :=
  match lines.find? (fun ln => ("lokale:".toList).isPrefixOf (pyLower (pyStrip ln))) with
  | some ln => if ':' ∈ ln then afterFirstColon ln else []
  | none => []

/-- The marker tokens stripped from the head of the tooltip. -/
def leading_marker_tokens : List Str :=
  [("ændret!".toList), ("changed!".toList), ("aflyst!".toList),
   ("cancelled!".toList), ("canceled!".toList)]

/-- Lines 141–149 of `html_parser.py`: combine the matched date with the
two clock times; when the end is not after the start, advance the end by
one day (`end_dt = end_dt + timedelta(days=1)`). -/
def build_times (effective_date : Date) (sh sm eh em : Int) : LDT × LDT :=
  let start_dt : LDT := ⟨effective_date, sh * 60 + sm⟩
  let end_dt : LDT := ⟨effective_date, eh * 60 + em⟩
  if end_dt.absMinutes ≤ start_dt.absMinutes then (start_dt, end_dt.addOneDay)
  else (start_dt, end_dt)

/-- First line with a `_DATE_LINE_RE` match (the `for idx, ln in
enumerate(lines)` loop with its `break`). -/
def first_date_line_match (lines : List Str) : Option DateLineMatch :=
  lines.findSome? searchDateLine

/-- Title selection of `_parse_tooltip`: skip a leading changed/cancelled
marker line, then take the first meaningful line; fall back to the first
line of the visible text, or the `(Untitled)` placeholder, when the title
is empty or itself looks like a date/time line. -/
def tooltip_title (lines : List Str) (content_fallback_title : Str) : Str :=
  let meaningful0 := (lines.map pyStrip).filter (· ≠ [])
  let title_line0 := (first_meaningful_line meaningful0).getD []
  let title_line :=
    if pyLower title_line0 ∈ leading_marker_tokens then
      (first_meaningful_line (meaningful0.drop 1)).getD []
    else title_line0
  if title_line = [] ∨ line_looks_like_datetime title_line then
    let fb := pyStrip ((splitOnNl (normalize_text content_fallback_title)).headD [])
    if fb = [] then ("(Untitled)".toList) else fb
  else title_line

/-- Date/time resolution of `_parse_tooltip` (lines 127–152): the matched
date line determines `(start, end, all_day_date, effective_date)`; without
a match the effective date falls back to the inherited cell date.  `none`
models the uncaught `ValueError` of an invalid `date(...)`/`time(...)`. -/
def resolve_date_line (m : Option DateLineMatch) (inherited_date : Option Date) :
    Option (Option LDT × Option LDT × Option Date × Option Date) :=
  match m with
  | none => some (none, none, none, inherited_date)
  | some m =>
    match mkDate m.year m.month m.day with
    | none => none
    | some effective_date =>
      match m.spec with
      | TimeSpec.allDay => some (none, none, some effective_date, some effective_date)
      | TimeSpec.timed sh sm eh em =>
        match mkTime sh sm, mkTime eh em with
        | some _, some _ =>
          let p := build_times effective_date sh sm eh em
          some (some p.1, some p.2, none, some effective_date)
        | _, _ => none

/-- Source `_parse_tooltip`.  Returns `none` when the Python function would
raise an uncaught `ValueError`; the timezone argument is dropped — times
are wall-clock values. -/
def parse_tooltip (tooltip_text content_fallback_title : Str)
    (inherited_date : Option Date) : Option TooltipParsed :=
  let normalized := normalize_text tooltip_text
  let lines := if normalized ≠ [] then splitOnNl normalized else []
  (resolve_date_line (first_date_line_match lines) inherited_date).map
    (fun q => ⟨tooltip_title lines content_fallback_title, q.1, q.2.1, q.2.2.1,
               room_of_lines lines, normalized, q.2.2.2⟩)

/-! ### Cancellation detection, titles, uids, filters -/

/-- Source `_looks_cancelled`: substring scan of the combined text. -/
def looks_cancelled (tooltip content_text : Str) : Bool :=
  let combined := pyLower (tooltip ++ '\n' :: content_text)
  [("aflyst".toList), ("aflyses".toList), ("cancelled".toList),
   ("canceled".toList), ("annulleret".toList), ("annullered".toList)].any
    (fun kw => containsSubstr kw combined)

/-- Source `_is_cancelled_event`: marker classes, then the first tooltip
line against the token set, then the vocabulary scan. -/
def is_cancelled_event (tooltip content_text : Str) (classes : List Str) : Bool :=
  let class_set := (classes.filter (fun c => pyStrip c ≠ [])).map (fun c => pyLower (pyStrip c))
  if class_set.any (fun c =>
      c ∈ [("s2cancelled".toList), ("cancelled".toList), ("canceled".toList), ("aflyst".toList)]) then
    true
  else
    match first_meaningful_line (if tooltip ≠ [] then splitOnNl (normalize_text tooltip) else []) with
    | some tf =>
      if pyLower (pyStrip tf) ∈
          [("aflyst!".toList), ("aflyst".toList), ("cancelled!".toList), ("cancelled".toList),
           ("canceled!".toList), ("canceled".toList), ("annulleret!".toList), ("annulleret".toList)] then
        true
      else looks_cancelled tooltip content_text
    | none => looks_cancelled tooltip content_text

/-- Teacher lookup of `_compose_title`: first line whose lowered form
starts with `lærer:` or `lærere:`. -/
def find_teachers (t : Str) : Str :=
  match (splitOnNl t).find? (fun ln =>
      ("lærer:".toList).isPrefixOf (pyLower ln) || ("lærere:".toList).isPrefixOf (pyLower ln)) with
  | some ln => if ':' ∈ ln then afterFirstColon ln else []
  | none => []

/-- Source `_compose_title`: join the non-empty parts
`[title, teachers, room]` with `" - "`. -/
def compose_title (base_title tooltip room : Str) : Str :=
  let t := normalize_text tooltip
  let teachers := find_teachers t
  let parts := [pyStrip base_title] ++ (if teachers ≠ [] then [teachers] else []) ++
    (if room ≠ [] then [room] else [])
  List.intercalate (" - ".toList) (parts.filter (· ≠ []))

/-- Source `_ALL_DAY_KEEP_MARKERS`. -/
def all_day_keep_markers : List Str := [("alle:".toList), ("2.g:".toList)]

/-- Source `_TIMED_DROP_MARKERS`. -/
def timed_drop_markers : List Str :=
  [("lego klubben".toList), ("armwrestling".toList), ("armwrestling-klubben".toList)]

/-- Source `_is_filtered_by_custom_rules`. -/
def is_filtered_by_custom_rules (is_all_day : Bool) (title description : Str) : Bool :=
  let haystack := pyLower (title ++ '\n' :: description)
  if is_all_day then !(all_day_keep_markers.any (fun m => containsSubstr m haystack))
  else timed_drop_markers.any (fun m => containsSubstr m haystack)

/-- Python `int(str)`: surrounding whitespace, an optional sign, then a
non-empty digit run (digit-group underscores do not occur in the inputs). -/
def parseIntOpt (l : Str) : Option Int :=
  let s := pyStrip l
  let p : Int × Str :=
    match s with
    | '-' :: rest => (-1, rest)
    | '+' :: rest => (1, rest)
    | _ => (1, s)
  if p.2 ≠ [] ∧ p.2.all isDigitC then
    some (p.1 * p.2.foldl (fun acc c => acc * 10 + digitVal c) 0)
  else none

/-- Source `_parse_date_from_data_date`, composed with the `try/except`
of its caller: `none` on malformed input. -/
def parse_date_from_data_date (raw : Str) : Option Date :=
  match splitOnChar '-' raw with
  | [ys, ms, ds] =>
    match parseIntOpt ys, parseIntOpt ms, parseIntOpt ds with
    | some y, some m, some d => mkDate y m d
    | _, _, _ => none
  | _ => none

/-- Python `d.isoformat()`. -/
def iso_format (d : Date) : Str := pad4 d.year ++ '-' :: (pad2 d.month ++ '-' :: pad2 d.day)

/-- Source `_build_uid`.  The truncated-hex SHA-256 content fingerprint is
the injected function `hashFn`; the claims considered here do not depend on
its value. -/
def build_uid (hashFn : Str → Str) (brikid : Option Str) (tooltip : Str)
    (effective_date : Date) : Str :=
  let fingerprint :=
    ("lectio-".toList) ++ hashFn (normalize_text tooltip ++ '\n' :: iso_format effective_date) ++
      ("@lectio.dk".toList)
  match brikid with
  | some b => if b ≠ [] then b ++ ("@lectio.dk".toList) else fingerprint
  | none => fingerprint

/-! ### The brick loop, ordering and window filter -/

/-- One schedule brick: the attributes that the loop of
`parse_lectio_advanced_schedule_html_text` reads off the anchor element
(the HTML traversal itself is outside the model). -/
structure Brick where
  data_date : Option Str
  data_tooltip : Option Str
  content_text : Str
  classes : List Str
  data_brikid : Option Str
deriving DecidableEq, Repr

/-- One iteration of the brick loop (lines 333–409): the state is the
emitted events plus the seen-uid set (modelled as the list of recorded
uids).  `none` models an uncaught exception from `_parse_tooltip`;
`some st` with unchanged events models every `continue`. -/
def parse_step (hashFn : Str → Str) (emit_cancelled_events : Bool)
    (st : List LectioEvent × List Str) (a : Brick) :
    Option (List LectioEvent × List Str) :=
  let inherited_date : Option Date :=
    match a.data_date with
    | some raw => if raw ≠ [] then parse_date_from_data_date raw else none
    | none => none
  let tooltip := normalize_text (a.data_tooltip.getD [])
  let content_text := normalize_text a.content_text
  if pyStrip tooltip = [] ∧ pyStrip content_text = [] then some st
  else
    let is_cancelled := is_cancelled_event tooltip content_text a.classes
    if is_cancelled && !emit_cancelled_events then some st
    else
      match parse_tooltip tooltip content_text inherited_date with
      | none => none
      | some parsed =>
        match parsed.effective_date with
        | none => some st
        | some effective_date =>
          if parsed.all_day_date = none ∧ (parsed.start = none ∨ parsed.«end» = none) then
            some st
          else
            let uid := build_uid hashFn a.data_brikid tooltip effective_date
            if uid ∈ st.2 then some st
            else
              let seen' := st.2 ++ [uid]
              let title := compose_title parsed.title tooltip parsed.room
              let description := parsed.description
              if is_filtered_by_custom_rules parsed.all_day_date.isSome title description then
                some (st.1, seen')
              else
                some (st.1 ++ [{ uid := uid, title := title, start := parsed.start,
                                 «end» := parsed.«end», all_day_date := parsed.all_day_date,
                                 location := parsed.room, description := description,
                                 status := if is_cancelled then ("CANCELLED".toList)
                                           else ("CONFIRMED".toList) }], seen')

/-- Sort key of the deterministic ordering (`_sort_key`): all-day events
first (flag 0), then by date-or-start, title, uid.  Defaults are
`date.min` / `datetime.min` as in the source; dates and datetimes enter
through their order-realizing day/minute numbers. -/
def sort_key (ev : LectioEvent) : Int ×ₗ (Int ×ₗ (Str ×ₗ Str)) :=
  if ev.is_all_day then
    toLex (0, toLex ((ev.all_day_date.getD ⟨1, 1, 1⟩).toDays, toLex (ev.title, ev.uid)))
  else
    toLex (1, toLex ((ev.start.getD ⟨⟨1, 1, 1⟩, 0⟩).absMinutes, toLex (ev.title, ev.uid)))

/-- Comparison of events by `sort_key`. -/
def event_le (a b : LectioEvent) : Prop := sort_key a ≤ sort_key b

instance : DecidableRel event_le := fun a b =>
  inferInstanceAs (Decidable (sort_key a ≤ sort_key b))

instance : IsTotal LectioEvent event_le :=
  ⟨fun a b => le_total (sort_key a) (sort_key b)⟩

instance : IsTrans LectioEvent event_le :=
  ⟨fun a b c h1 h2 => le_trans h1 h2⟩

/-- Python `events.sort(key=_sort_key)`: a stable sort by a key function.
A stable sort by a fixed key is extensionally unique, so the stable
insertion sort realizes `list.sort` exactly. -/
def sort_events (events : List LectioEvent) : List LectioEvent :=
  List.insertionSort event_le events

/-- The `_event_date` helper of the window filter: the all-day date, or
the local calendar date of `start` (the events' datetimes are local
wall-clock values, so `astimezone(local_tz).date()` is their date part). -/
def event_date (ev : LectioEvent) : Option Date :=
  if ev.is_all_day then ev.all_day_date
  else
    match ev.start with
    | none => none
    | some s => some s.date

/-- The date-window filter (lines 439–463): active when either bound is
given, with defaults 7/90 for the other; keeps events whose effective date
lies in `[today - past, today + future]` (date comparison is calendar
order, realized by day numbers). -/
def window_filter (sync_days_past sync_days_future : Option Int) (today : Date)
    (events : List LectioEvent) : List LectioEvent :=
  if sync_days_past ≠ none ∨ sync_days_future ≠ none then
    let past := sync_days_past.getD 7
    let future := sync_days_future.getD 90
    let window_start := today.addDays (-past)
    let window_end := today.addDays future
    events.filter (fun ev =>
      match event_date ev with
      | some d => decide (window_start.toDays ≤ d.toDays ∧ d.toDays ≤ window_end.toDays)
      | none => false)
  else events

/-- Source `parse_lectio_advanced_schedule_html_text`, from the located
brick list on: the per-brick loop, the deterministic sort, then the date
window.  `today` is `datetime.now(local_tz).date()` as an explicit
parameter; the diagnostics counters are omitted (they do not affect the
returned list). -/
def parse_lectio_advanced_schedule_bricks (hashFn : Str → Str) (bricks : List Brick)
    (today : Date) (sync_days_past sync_days_future : Option Int)
    (emit_cancelled_events : Bool) : Option (List LectioEvent) :=
  match bricks.foldlM (parse_step hashFn emit_cancelled_events) ([], []) with
  | none => none
  | some st =>
    some (window_filter sync_days_past sync_days_future today (sort_events st.1))

/-! ### Concrete instances used by witnesses and counterexamples -/

/-- A fixed stand-in for the truncated SHA-256 hex fingerprint. -/
def hash0 : Str → Str := fun _ => ("00112233445566778899aabb".toList)

/-- A concrete `today` for the window filter examples. -/
def today0 : Date := ⟨2026, 2, 26⟩

/-- A timed brick (the spec's worked example). -/
def brick_timed : Brick :=
  ⟨some ("2026-03-01".toList),
   some ("Subject\n1/3-2026 10:00 til 11:30\nLokale: 2.29".toList), [], [],
   some ("12345".toList)⟩

/-- An all-day brick carrying a keep marker. -/
def brick_allday : Brick :=
  ⟨some ("2026-02-26".toList),
   some ("Alle: Temadag\n26/2-2026 Hele dagen".toList), [], [],
   some ("99".toList)⟩

/-- A cancelled brick (leading `Aflyst!` marker line). -/
def brick_cancelled : Brick :=
  ⟨none, some ("Aflyst!\nSubject\n1/3-2026 10:00 til 11:30".toList), [], [],
   some ("777".toList)⟩

/-- A brick list with a duplicate uid for the dedup examples. -/
def demo_bricks : List Brick := [brick_timed, brick_timed, brick_allday]

/-- The event list extracted from `demo_bricks`. -/
def demo_events : List LectioEvent :=
  (parse_lectio_advanced_schedule_bricks hash0 demo_bricks today0 none none false).getD []

/-- An all-day event dated 2026-02-19 (inside the example window). -/
def ev_feb19 : LectioEvent :=
  ⟨"u19@lectio.dk".toList, "A".toList, none, none, some ⟨2026, 2, 19⟩, [], [],
   "CONFIRMED".toList⟩

/-- An all-day event dated 2026-02-18 (outside the example window). -/
def ev_feb18 : LectioEvent :=
  ⟨"u18@lectio.dk".toList, "B".toList, none, none, some ⟨2026, 2, 18⟩, [], [],
   "CONFIRMED".toList⟩

/-- The state produced by one `parse_step` on the cancelled brick with
cancelled emission enabled. -/
def cancelled_step_result : List LectioEvent × List Str :=
  (parse_step hash0 true ([], []) brick_cancelled).getD ([], [])

/-- A cancelled event instance for the serializer examples. -/
def ev_cancelled : LectioEvent :=
  ⟨"uid-c@lectio.dk".toList, "Cancelled Class".toList,
   some ⟨⟨2026, 2, 2⟩, 540⟩, some ⟨⟨2026, 2, 2⟩, 600⟩, none, "2.29".toList,
   "Aflyst!".toList, "CANCELLED".toList⟩

/-- A fixed `DTSTAMP` value for the serializer examples. -/
def stamp0 : Str := "20260226T120000Z".toList

/-- The all-day event of the spec's serializer example, dated 2026-02-26. -/
def c1_event : LectioEvent :=
  ⟨"uid-allday@lectio.dk".toList, "All Day Event".toList, none, none,
   some ⟨2026, 2, 26⟩, [], [], "CONFIRMED".toList⟩

/-- A fixed generation timestamp. -/
def c1_ts : UtcTimestamp := ⟨2026, 2, 26, 12, 0, 0⟩

/-- Per-character form of the escaping rule: the four escaped characters
and their replacements.  `escape_ical_value` coincides with mapping this
over the input whenever the input carries no carriage return. -/
def escChar (c : Char) : Str :=
  if c = '\\' then ['\\', '\\']
  else if c = ';' then ['\\', ';']
  else if c = ',' then ['\\', ',']
  else if c = '\n' then ['\\', 'n']
  else [c]

/-- Per-character form of the first three `.replace` stages (backslash,
semicolon, comma) of `_escape_ical_value`. -/
def escChar3 (c : Char) : Str :=
  if c = '\\' then ['\\', '\\']
  else if c = ';' then ['\\', ';']
  else if c = ',' then ['\\', ',']
  else [c]

/-- Modelled from the spec: the RFC5545 TEXT unescape rule used to state
the round-trip property — a backslash followed by `n`/`N` yields a
newline, a backslash followed by any other character yields that character,
everything else is literal.  (The repository has no parser of its own
feed; this is the consumer-side rule the claim quantifies over.) -/
def unescape_ical_value : Str → Str
  | [] => []
  | [c] => [c]
  | c1 :: c2 :: rest =>
    if c1 = '\\' then
      (if c2 = 'n' ∨ c2 = 'N' then '\n' else c2) :: unescape_ical_value rest
    else c1 :: unescape_ical_value (c2 :: rest)

/-- Segment size discipline of the folding function: the first physical
segment carries at most 75 octets, every continuation segment at most 74
octets (its leading space, added at join time, makes 75). -/
def segOk : List Str → Prop
  | [] => True
  | h :: t => bytesLen h ≤ 75 ∧ ∀ s ∈ t, bytesLen s ≤ 74

/-! ### Theorems -/

theorem utf8Len_le4 (c : Char) : utf8Len c ≤ 4 := by
  simp only [utf8Len]; split_ifs <;> omega

theorem bytesLen_append (a b : Str) : bytesLen (a ++ b) = bytesLen a + bytesLen b := by
  simp [bytesLen]

theorem bytesLen_singleton (c : Char) : bytesLen [c] = utf8Len c := by
  simp [bytesLen]

theorem segOk_push (out : List Str) (cur : Str) (hOk : segOk out)
    (h75 : out = [] → bytesLen cur ≤ 75) (h74 : out ≠ [] → bytesLen cur ≤ 74) :
    segOk (out ++ [cur]) := by
  cases out with
  | nil => exact ⟨h75 rfl, by simp⟩
  | cons h t =>
    refine ⟨hOk.1, fun s hs => ?_⟩
    rcases List.mem_append.mp hs with hs | hs
    · exact hOk.2 s hs
    · rcases List.mem_singleton.mp hs with rfl
      exact h74 (by simp)

theorem fold_loop_spec (chars : Str) : ∀ (out : List Str) (current : Str) (limit : Nat),
    ((limit = 75 ∧ out = []) ∨ (limit = 74 ∧ out ≠ [])) →
    bytesLen current ≤ limit →
    segOk out →
    ((fold_loop chars out current limit).1.flatten ++ (fold_loop chars out current limit).2
        = out.flatten ++ current ++ chars) ∧
    segOk (fold_loop chars out current limit).1 ∧
    ((fold_loop chars out current limit).1 = [] → bytesLen (fold_loop chars out current limit).2 ≤ 75) ∧
    ((fold_loop chars out current limit).1 ≠ [] → bytesLen (fold_loop chars out current limit).2 ≤ 74) := by
  induction chars with
  | nil =>
    intro out current limit hinv hcur hok
    refine ⟨by simp [fold_loop], hok, ?_, ?_⟩
    · intro h
      rcases hinv with ⟨h75, _⟩ | ⟨_, hne⟩
      · simpa [fold_loop, h75] using hcur
      · simp only [fold_loop] at h; exact absurd h hne
    · intro h
      rcases hinv with ⟨_, hemp⟩ | ⟨h74, _⟩
      · simp only [fold_loop] at h; exact absurd hemp h
      · simpa [fold_loop, h74] using hcur
  | cons ch rest ih =>
    intro out current limit hinv hcur hok
    by_cases hflush : bytesLen current + utf8Len ch > limit
    · have hrec := ih (out ++ [current]) [ch] 74
        (Or.inr ⟨rfl, by simp⟩)
        (by rw [bytesLen_singleton]; exact le_trans (utf8Len_le4 ch) (by omega))
        (segOk_push out current hok
          (fun h => by
            rcases hinv with ⟨h75, _⟩ | ⟨_, hne⟩
            · omega
            · exact absurd h hne)
          (fun h => by
            rcases hinv with ⟨_, hemp⟩ | ⟨h74, _⟩
            · exact absurd hemp h
            · omega))
      have hstep : fold_loop (ch :: rest) out current limit
          = fold_loop rest (out ++ [current]) [ch] 74 := by
        simp only [fold_loop, if_pos hflush]
      rw [hstep]
      refine ⟨?_, hrec.2.1, hrec.2.2.1, hrec.2.2.2⟩
      rw [hrec.1]
      simp
    · have hrec := ih out (current ++ [ch]) limit hinv
        (by rw [bytesLen_append, bytesLen_singleton]; omega) hok
      have hstep : fold_loop (ch :: rest) out current limit
          = fold_loop rest out (current ++ [ch]) limit := by
        simp only [fold_loop, if_neg hflush]
      rw [hstep]
      refine ⟨?_, hrec.2.1, hrec.2.2.1, hrec.2.2.2⟩
      rw [hrec.1]
      simp

theorem fold75_segments_flatten (line : Str) : (fold75_segments line).flatten = line := by
  by_cases hle : bytesLen line ≤ 75
  · simp [fold75_segments, hle]
  · have h := fold_loop_spec line [] [] 75 (Or.inl ⟨rfl, rfl⟩) (by simp [bytesLen]) trivial
    simp only [fold75_segments, if_neg hle]
    by_cases hc : (fold_loop line [] [] 75).2 ≠ []
    · simp only [if_pos hc]
      have hne : (if ((fold_loop line [] [] 75).1 ++ [(fold_loop line [] [] 75).2]) = []
          then [line] else ((fold_loop line [] [] 75).1 ++ [(fold_loop line [] [] 75).2]))
          = (fold_loop line [] [] 75).1 ++ [(fold_loop line [] [] 75).2] := by
        rw [if_neg (by simp)]
      rw [hne]
      have := h.1
      simpa using this
    · push_neg at hc
      simp only [if_neg (by simp [hc] : ¬ (fold_loop line [] [] 75).2 ≠ [])]
      have hflat : (fold_loop line [] [] 75).1.flatten = line := by
        have := h.1; rwa [hc, List.append_nil] at this
      by_cases hout : (fold_loop line [] [] 75).1 = []
      · exfalso
        rw [hout] at hflat
        simp at hflat
        subst hflat
        exact hle (by simp [bytesLen])
      · rw [if_neg hout]
        exact hflat

theorem fold75_segments_segOk (line : Str) : segOk (fold75_segments line) := by
  by_cases hle : bytesLen line ≤ 75
  · simp only [fold75_segments, if_pos hle]
    exact ⟨hle, by simp⟩
  · have h := fold_loop_spec line [] [] 75 (Or.inl ⟨rfl, rfl⟩) (by simp [bytesLen]) trivial
    simp only [fold75_segments, if_neg hle]
    by_cases hc : (fold_loop line [] [] 75).2 ≠ []
    · simp only [if_pos hc, if_neg (by simp : ¬ ((fold_loop line [] [] 75).1 ++ [(fold_loop line [] [] 75).2]) = [])]
      exact segOk_push _ _ h.2.1 (fun he => h.2.2.1 he) (fun hne => h.2.2.2 hne)
    · simp only [if_neg hc]
      by_cases hout : (fold_loop line [] [] 75).1 = []
      · rw [if_pos hout]
        exfalso
        have hflat := h.1
        rw [hout] at hflat
        push_neg at hc
        rw [hc] at hflat
        simp at hflat
        subst hflat
        exact hle (by simp [bytesLen])
      · rw [if_neg hout]
        exact h.2.1

/-- Claim C3 (status: confirmed).  The folding function splits a rendered
property line into physical segments whose concatenation is exactly the
original character sequence (so no multi-byte character is divided), with
the first segment at most 75 UTF-8 octets and every continuation segment at
most 74 octets before its leading space; a line of at most 75 octets is
returned unchanged as a single segment. -/
theorem fold_75_octets_segments (line : Str) :
    (fold75_segments line).flatten = line ∧
    segOk (fold75_segments line) ∧
    (bytesLen line ≤ 75 → fold75_segments line = [line]) := by
  refine ⟨fold75_segments_flatten line, fold75_segments_segOk line, fun h => ?_⟩
  simp [fold75_segments, h]

/-- Witness for C3: a concrete long `DESCRIPTION` line is split into
segments obeying the octet bounds, and a concrete short line is returned
unchanged. -/
theorem fold_75_octets_segments_witness :
    ((fold75_segments (("DESCRIPTION:".toList) ++ List.replicate 100 'å')).flatten
        = ("DESCRIPTION:".toList) ++ List.replicate 100 'å') ∧
    (bytesLen ("DESCRIPTION:short".toList) ≤ 75) ∧
    fold75_segments ("DESCRIPTION:short".toList) = [("DESCRIPTION:short".toList)] :=
  ⟨(fold_75_octets_segments _).1, by decide,
   (fold_75_octets_segments ("DESCRIPTION:short".toList)).2.2 (by decide)⟩

/-- Claim C1 (status: code_bug).  The claim — and the repository's own test
`test_all_day_dtend_is_exclusive` — require the all-day `DTEND` to be the
exclusive end `allDayDate + 1 day`, i.e. `DTEND;VALUE=DATE:20260227` for an
all-day event dated 2026-02-26.  The code emits the same date string for
`DTSTART` and `DTEND`: the feed contains `DTEND;VALUE=DATE:20260226` and no
`DTEND;VALUE=DATE:20260227` line. -/
theorem allday_dtend_not_exclusive :
    (("DTSTART;VALUE=DATE:20260226".toList) ∈
      build_icalendar_lines c1_ts [c1_event] (some c1_ts)) ∧
    (("DTEND;VALUE=DATE:20260226".toList) ∈
      build_icalendar_lines c1_ts [c1_event] (some c1_ts)) ∧
    ¬ (("DTEND;VALUE=DATE:20260227".toList) ∈
      build_icalendar_lines c1_ts [c1_event] (some c1_ts)) := by
  refine ⟨?_, ?_, ?_⟩ <;> decide

/-- Claim C10 (status: confirmed).  With an explicitly supplied generation
timestamp, the serializer's output does not depend on the ambient clock:
two calls with equal event sequences and the same timestamp argument
produce byte-for-byte identical feed text. -/
theorem build_icalendar_deterministic (now1 now2 : UtcTimestamp)
    (events : List LectioEvent) (ts : UtcTimestamp) :
    build_icalendar now1 events (some ts) = build_icalendar now2 events (some ts) := rfl

/-- Claim C4 (status: confirmed).  In the timed branch of `_parse_tooltip`
(embedded as `build_times`), when the matched end clock time is at most the
start clock time the end is advanced by one calendar day, so its date is
`start.date + 1`; when the end is strictly later on the same date it is
left unadjusted. -/
theorem overnight_end_date (d : Date) (sh sm eh em : Int) :
    (eh * 60 + em ≤ sh * 60 + sm →
      (build_times d sh sm eh em).2.date = (build_times d sh sm eh em).1.date.addDays 1) ∧
    (sh * 60 + sm < eh * 60 + em →
      (build_times d sh sm eh em).2.date = (build_times d sh sm eh em).1.date) := by
  constructor <;> intro h <;>
    simp only [build_times, LDT.absMinutes, LDT.addOneDay]
  · rw [if_pos (by omega)]
  · rw [if_neg (by omega)]

/-- Witness for C4 at the spec's `23:00 til 00:30` example. -/
theorem overnight_end_date_witness :
    ((0 : Int) * 60 + 30 ≤ 23 * 60 + 0) ∧
    (build_times ⟨2026, 2, 23⟩ 23 0 0 30).2.date =
      (build_times ⟨2026, 2, 23⟩ 23 0 0 30).1.date.addDays 1 :=
  ⟨by decide, (overnight_end_date ⟨2026, 2, 23⟩ 23 0 0 30).1 (by decide)⟩

theorem replOne_append (t : Char) (r : Str) (a b : Str) :
    replOne t r (a ++ b) = replOne t r a ++ replOne t r b := by
  induction a with
  | nil => simp [replOne]
  | cons c cs ih =>
    by_cases h : c = t <;> simp [replOne, h, ih]

theorem replOne_of_not_mem (t : Char) (r : Str) (l : Str) (h : t ∉ l) :
    replOne t r l = l := by
  induction l with
  | nil => rfl
  | cons c cs ih =>
    have hc : c ≠ t := fun he => h (he ▸ List.mem_cons_self c cs)
    simp only [replOne, if_neg hc]
    rw [ih (fun hm => h (List.mem_cons_of_mem c hm))]

theorem not_mem_replOne (x t : Char) (r : Str) (l : Str) (hl : x ∉ l) (hr : x ∉ r) :
    x ∉ replOne t r l := by
  induction l with
  | nil => simp [replOne]
  | cons c cs ih =>
    have hx : x ∉ cs := fun hm => hl (List.mem_cons_of_mem c hm)
    have hcx : c ≠ x := fun he => hl (he ▸ List.mem_cons_self c cs)
    by_cases h : c = t
    · simp only [replOne, if_pos h]
      intro hm
      rcases List.mem_append.mp hm with hm | hm
      · exact hr hm
      · exact ih hx hm
    · simp only [replOne, if_neg h]
      intro hm
      rcases List.mem_cons.mp hm with hm | hm
      · exact hcx hm.symm
      · exact ih hx hm

theorem replaceCRLF_of_no_cr (l : Str) (h : '\r' ∉ l) : replaceCRLF l = l := by
  induction l with
  | nil => rfl
  | cons c cs ih =>
    have hc : c ≠ '\r' := fun he => h (he ▸ List.mem_cons_self c cs)
    have hcs : '\r' ∉ cs := fun hm => h (List.mem_cons_of_mem c hm)
    cases cs with
    | nil => rfl
    | cons c2 rest =>
      have hstep : replaceCRLF (c :: c2 :: rest) = c :: replaceCRLF (c2 :: rest) := by
        simp only [replaceCRLF]
        rw [if_neg]
        intro hp
        exact hc hp.1
      rw [hstep, ih hcs]

/-- The first three `.replace` stages of `_escape_ical_value` coincide
with mapping `escChar3` over the characters. -/
theorem escape_stage3_eq (v : Str) :
    replOne ',' ['\\', ','] (replOne ';' ['\\', ';'] (replOne '\\' ['\\', '\\'] v))
      = v.flatMap escChar3 := by
  induction v with
  | nil => rfl
  | cons c cs ih =>
    have hsplit : (c :: cs) = [c] ++ cs := rfl
    rw [hsplit, replOne_append, replOne_append, replOne_append, List.flatMap_append, ih]
    congr 1
    by_cases h1 : c = '\\'
    · subst h1; rfl
    · by_cases h2 : c = ';'
      · subst h2; rfl
      · by_cases h3 : c = ','
        · subst h3; rfl
        · simp [replOne, escChar3, h1, h2, h3]

theorem no_cr_flatMap_escChar3 (v : Str) (hcr : '\r' ∉ v) :
    '\r' ∉ v.flatMap escChar3 := by
  intro hm
  rcases List.mem_flatMap.mp hm with ⟨c, hcv, hce⟩
  simp only [escChar3] at hce
  split_ifs at hce <;> simp at hce
  subst hce
  exact hcr hcv

/-- The final `\n` stage turns the three-stage per-character form into the
full per-character form. -/
theorem replOne_nl_flatMap (v : Str) :
    replOne '\n' ['\\', 'n'] (v.flatMap escChar3) = v.flatMap escChar := by
  induction v with
  | nil => rfl
  | cons c cs ih =>
    rw [List.flatMap_cons, List.flatMap_cons, replOne_append, ih]
    congr 1
    by_cases h1 : c = '\\'
    · subst h1; rfl
    · by_cases h2 : c = ';'
      · subst h2; rfl
      · by_cases h3 : c = ','
        · subst h3; rfl
        · by_cases h4 : c = '\n'
          · subst h4; rfl
          · simp [escChar3, escChar, replOne, h1, h2, h3, h4]

/-- On carriage-return-free input, `_escape_ical_value` is exactly the
per-character escaping map. -/
theorem escape_eq_flatMap (v : Str) (hcr : '\r' ∉ v) :
    escape_ical_value v = v.flatMap escChar := by
  simp only [escape_ical_value]
  rw [escape_stage3_eq]
  rw [replaceCRLF_of_no_cr _ (no_cr_flatMap_escChar3 v hcr),
    replOne_of_not_mem _ _ _ (no_cr_flatMap_escChar3 v hcr), replOne_nl_flatMap]

theorem unescape_esc_pair (c2 : Char) (l : Str) :
    unescape_ical_value ('\\' :: c2 :: l)
      = (if c2 = 'n' ∨ c2 = 'N' then '\n' else c2) :: unescape_ical_value l := by
  simp [unescape_ical_value]

theorem unescape_cons_ne (c : Char) (l : Str) (h : c ≠ '\\') :
    unescape_ical_value (c :: l) = c :: unescape_ical_value l := by
  cases l with
  | nil => rfl
  | cons c2 rest => simp [unescape_ical_value, h]

theorem unescape_flatMap_escChar (v : Str) :
    unescape_ical_value (v.flatMap escChar) = v := by
  induction v with
  | nil => rfl
  | cons c cs ih =>
    rw [List.flatMap_cons]
    by_cases h1 : c = '\\'
    · subst h1
      show unescape_ical_value ('\\' :: '\\' :: cs.flatMap escChar) = '\\' :: cs
      rw [unescape_esc_pair, if_neg (by decide), ih]
    · by_cases h2 : c = ';'
      · subst h2
        show unescape_ical_value ('\\' :: ';' :: cs.flatMap escChar) = ';' :: cs
        rw [unescape_esc_pair, if_neg (by decide), ih]
      · by_cases h3 : c = ','
        · subst h3
          show unescape_ical_value ('\\' :: ',' :: cs.flatMap escChar) = ',' :: cs
          rw [unescape_esc_pair, if_neg (by decide), ih]
        · by_cases h4 : c = '\n'
          · subst h4
            show unescape_ical_value ('\\' :: 'n' :: cs.flatMap escChar) = '\n' :: cs
            rw [unescape_esc_pair, if_pos (by decide), ih]
          · have hesc : escChar c = [c] := by simp [escChar, h1, h2, h3, h4]
            rw [hesc]
            show unescape_ical_value (c :: cs.flatMap escChar) = c :: cs
            rw [unescape_cons_ne c _ h1, ih]

/-- Counterexample to claim C2 as stated: the serializer strips outer
whitespace from the description before escaping (`(ev.description or
"").strip()`), so a description with a trailing newline — one of the very
characters the claim quantifies over — is not recovered exactly. -/
theorem description_roundtrip_counterexample :
    unescape_ical_value (escape_ical_value (pyStrip ("a,b;c\\d\ne\n".toList)))
      ≠ ("a,b;c\\d\ne\n".toList) := by decide

/-- Claim C2 (status: corrected).  Amended statement: for every description
without leading or trailing whitespace and without carriage returns,
unescaping the `DESCRIPTION` text value emitted by the serializer
(`escape_ical_value` applied to the stripped description) recovers the
original exactly — including embedded commas, semicolons, backslashes and
newlines.  In general the round trip returns the whitespace-stripped,
CR-normalized description. -/
theorem description_roundtrip (d : Str) (hcr : '\r' ∉ d) (hstrip : pyStrip d = d) :
    unescape_ical_value (escape_ical_value (pyStrip d)) = d := by
  rw [hstrip, escape_eq_flatMap d hcr, unescape_flatMap_escChar]

/-- Witness for C2's amended round trip on a description containing a
comma, a semicolon, a backslash and an embedded newline. -/
theorem description_roundtrip_witness :
    ('\r' ∉ ("a,b;c\\d\ne".toList)) ∧
    pyStrip ("a,b;c\\d\ne".toList) = ("a,b;c\\d\ne".toList) ∧
    unescape_ical_value (escape_ical_value (pyStrip ("a,b;c\\d\ne".toList)))
      = ("a,b;c\\d\ne".toList) :=
  ⟨by decide, by decide, description_roundtrip _ (by decide) (by decide)⟩

theorem foldlM_option_inv {σ β : Type _} (step : σ → β → Option σ) (P : σ → Prop)
    (hstep : ∀ s b s', step s b = some s' → P s → P s') :
    ∀ (l : List β) (s s' : σ), List.foldlM step s l = some s' → P s → P s' := by
  intro l
  induction l with
  | nil =>
    intro s s' h hp
    simp only [List.foldlM_nil, pure, Option.some.injEq] at h
    exact h ▸ hp
  | cons b bs ih =>
    intro s s' h hp
    rw [List.foldlM_cons] at h
    cases hstep1 : step s b with
    | none => rw [hstep1] at h; exact Option.noConfusion h
    | some s1 =>
      rw [hstep1] at h
      simp only [Option.bind_eq_bind, Option.some_bind] at h
      exact ih s1 s' h (hstep s b s1 hstep1 hp)

theorem parse_eq_elim (hashFn : Str → Str) (bricks : List Brick) (today : Date)
    (dp df : Option Int) (ec : Bool) (evs : List LectioEvent)
    (h : parse_lectio_advanced_schedule_bricks hashFn bricks today dp df ec = some evs) :
    ∃ st, bricks.foldlM (parse_step hashFn ec) ([], []) = some st ∧
      evs = window_filter dp df today (sort_events st.1) := by
  unfold parse_lectio_advanced_schedule_bricks at h
  split at h
  · exact Option.noConfusion h
  · next st heq =>
    refine ⟨st, heq, ?_⟩
    injection h with h
    exact h.symm

theorem window_filter_sublist (dp df : Option Int) (today : Date)
    (l : List LectioEvent) : (window_filter dp df today l).Sublist l := by
  unfold window_filter
  split
  · exact List.filter_sublist l
  · exact List.Sublist.refl l

theorem mem_parse_result (hashFn : Str → Str) (bricks : List Brick) (today : Date)
    (dp df : Option Int) (ec : Bool) (evs : List LectioEvent) (st : List LectioEvent × List Str)
    (hfold : bricks.foldlM (parse_step hashFn ec) ([], []) = some st)
    (hevs : evs = window_filter dp df today (sort_events st.1)) :
    ∀ ev ∈ evs, ev ∈ st.1 := by
  intro ev hev
  rw [hevs] at hev
  have h1 := (window_filter_sublist dp df today (sort_events st.1)).mem hev
  exact (List.mem_insertionSort event_le).mp h1

theorem resolve_date_line_exclusive (m : Option DateLineMatch) (inh : Option Date)
    (q : Option LDT × Option LDT × Option Date × Option Date)
    (h : resolve_date_line m inh = some q) :
    (q.2.2.1.isSome → q.1 = none ∧ q.2.1 = none) ∧ (q.1.isSome ↔ q.2.1.isSome) := by
  unfold resolve_date_line at h
  split at h
  · injection h with h
    subst h
    simp
  · split at h
    · exact Option.noConfusion h
    · split at h
      · injection h with h
        subst h
        simp
      · split at h
        · injection h with h
          subst h
          simp
        · exact Option.noConfusion h

theorem parse_tooltip_elim (tt fb : Str) (inh : Option Date) (p : TooltipParsed)
    (h : parse_tooltip tt fb inh = some p) :
    ∃ q, resolve_date_line
        (first_date_line_match (if normalize_text tt ≠ [] then splitOnNl (normalize_text tt) else []))
        inh = some q ∧
      p.start = q.1 ∧ p.«end» = q.2.1 ∧ p.all_day_date = q.2.2.1 ∧
      p.effective_date = q.2.2.2 := by
  simp only [parse_tooltip, Option.map_eq_some'] at h
  obtain ⟨q, hq, hp⟩ := h
  subst hp
  exact ⟨q, hq, rfl, rfl, rfl, rfl⟩

theorem parse_tooltip_exclusive (tt fb : Str) (inh : Option Date) (p : TooltipParsed)
    (h : parse_tooltip tt fb inh = some p) :
    (p.all_day_date.isSome → p.start = none ∧ p.«end» = none) ∧
    (p.start.isSome ↔ p.«end».isSome) := by
  obtain ⟨q, hq, h1, h2, h3, _⟩ := parse_tooltip_elim tt fb inh p h
  have hx := resolve_date_line_exclusive _ _ _ hq
  rw [h1, h2, h3]
  exact hx

set_option maxHeartbeats 800000 in
/-- Case analysis of one brick-loop iteration: either the state is
unchanged (a skip), or a fresh uid is recorded — with the event either
suppressed by the keyword filter or appended, in which case its shape,
uid and status discipline are pinned down. -/
theorem parse_step_spec (hashFn : Str → Str) (ec : Bool)
    (st : List LectioEvent × List Str) (b : Brick) (st' : List LectioEvent × List Str)
    (h : parse_step hashFn ec st b = some st') :
    st' = st ∨
    (∃ u, u ∉ st.2 ∧ st'.2 = st.2 ++ [u] ∧
      (st'.1 = st.1 ∨ ∃ ev, st'.1 = st.1 ++ [ev] ∧ ev.uid = u ∧
        ((ev.all_day_date.isSome ∧ ev.start = none ∧ ev.«end» = none) ∨
         (ev.all_day_date = none ∧ ev.start.isSome ∧ ev.«end».isSome)) ∧
        (ev.status = ("CANCELLED".toList) ∨ ev.status = ("CONFIRMED".toList)) ∧
        (ec = false → ev.status = ("CONFIRMED".toList)) ∧
        (is_cancelled_event (normalize_text (b.data_tooltip.getD []))
            (normalize_text b.content_text) b.classes = true →
          ev.status = ("CANCELLED".toList)))) := by
  simp only [parse_step] at h
  split at h
  · left; simp only [Option.some.injEq] at h; exact h.symm
  · split at h
    · left; simp only [Option.some.injEq] at h; exact h.symm
    · rename_i hnc
      split at h
      · exact Option.noConfusion h
      · rename_i parsed heq
        split at h
        · left; simp only [Option.some.injEq] at h; exact h.symm
        · rename_i effective_date heff
          split at h
          · left; simp only [Option.some.injEq] at h; exact h.symm
          · rename_i hgate
            split at h
            · left; simp only [Option.some.injEq] at h; exact h.symm
            · rename_i huid
              right
              refine ⟨build_uid hashFn b.data_brikid
                (normalize_text (b.data_tooltip.getD [])) effective_date, huid, ?_⟩
              split at h
              · simp only [Option.some.injEq] at h
                subst h
                exact ⟨rfl, Or.inl rfl⟩
              · simp only [Option.some.injEq] at h
                subst h
                refine ⟨rfl, Or.inr ⟨_, rfl, rfl, ?_, ?_, ?_, ?_⟩⟩
                · have hx := parse_tooltip_exclusive _ _ _ _ heq
                  by_cases hall : parsed.all_day_date = none
                  · right
                    refine ⟨hall, ?_, ?_⟩
                    · have hne : ¬ (parsed.start = none ∨ parsed.«end» = none) :=
                        fun hd => hgate ⟨hall, hd⟩
                      push_neg at hne
                      exact Option.ne_none_iff_isSome.mp hne.1
                    · have hne : ¬ (parsed.start = none ∨ parsed.«end» = none) :=
                        fun hd => hgate ⟨hall, hd⟩
                      push_neg at hne
                      exact Option.ne_none_iff_isSome.mp hne.2
                  · left
                    have hsome : parsed.all_day_date.isSome :=
                      Option.ne_none_iff_isSome.mp hall
                    exact ⟨hsome, (hx.1 hsome).1, (hx.1 hsome).2⟩
                · by_cases hc : is_cancelled_event (normalize_text (b.data_tooltip.getD []))
                      (normalize_text b.content_text) b.classes
                  · left; simp [hc]
                  · right; simp [hc]
                · intro hec
                  subst hec
                  simp only [Bool.not_false, Bool.and_true] at hnc
                  simp [hnc]
                · intro hc
                  simp [hc]

/-- Claim C5 (status: confirmed).  Every event returned by schedule
extraction has exactly one of `all_day_date` or the `(start, end)` pair
set: with `all_day_date` present both timestamps are absent, and with
`all_day_date` absent both timestamps are present — bricks resolving to
neither are dropped by the loop's gates and never become events. -/
theorem events_exactly_one_shape (hashFn : Str → Str) (bricks : List Brick) (today : Date)
    (dp df : Option Int) (ec : Bool) (evs : List LectioEvent)
    (h : parse_lectio_advanced_schedule_bricks hashFn bricks today dp df ec = some evs) :
    ∀ ev ∈ evs, (ev.all_day_date.isSome → ev.start = none ∧ ev.«end» = none) ∧
      (ev.all_day_date = none → ev.start.isSome ∧ ev.«end».isSome) := by
  obtain ⟨st, hfold, hevs⟩ := parse_eq_elim hashFn bricks today dp df ec evs h
  have hinv := foldlM_option_inv (parse_step hashFn ec)
    (fun s => ∀ ev ∈ s.1,
      (ev.all_day_date.isSome → ev.start = none ∧ ev.«end» = none) ∧
      (ev.all_day_date = none → ev.start.isSome ∧ ev.«end».isSome))
    (fun s b s' hs hP => by
      rcases parse_step_spec hashFn ec s b s' hs with rfl | ⟨u, hu, hseen, hcase⟩
      · exact hP
      · rcases hcase with heq | ⟨ev0, heq, huid0, hshape, _⟩
        · intro ev hev
          rw [heq] at hev
          exact hP ev hev
        · intro ev hev
          rw [heq] at hev
          rcases List.mem_append.mp hev with h1 | h1
          · exact hP ev h1
          · rcases List.mem_singleton.mp h1 with rfl
            rcases hshape with ⟨hs1, hs2, hs3⟩ | ⟨hs1, hs2, hs3⟩
            · refine ⟨fun _ => ⟨hs2, hs3⟩, fun hn => ?_⟩
              rw [hn] at hs1
              exact absurd hs1 (by simp)
            · refine ⟨fun hsome => ?_, fun _ => ⟨hs2, hs3⟩⟩
              rw [hs1] at hsome
              exact absurd hsome (by simp))
    bricks ([], []) st hfold (by simp)
  intro ev hev
  exact hinv ev (mem_parse_result hashFn bricks today dp df ec evs st hfold hevs ev hev)

/-- Claim C6 (status: confirmed).  The uids of the returned event list are
pairwise distinct: each loop iteration only appends an event whose uid is
not yet in the seen set (and records it), so a later brick deriving an
already-seen uid is skipped while the earlier event — events are only ever
appended, the prior list is a prefix — stays. -/
theorem parse_uids_nodup (hashFn : Str → Str) (bricks : List Brick) (today : Date)
    (dp df : Option Int) (ec : Bool) (evs : List LectioEvent)
    (h : parse_lectio_advanced_schedule_bricks hashFn bricks today dp df ec = some evs) :
    (evs.map (fun ev => ev.uid)).Nodup ∧
    (∀ (evs₀ : List LectioEvent) (seen₀ : List Str) (b : Brick)
       (evs₁ : List LectioEvent) (seen₁ : List Str),
      parse_step hashFn ec (evs₀, seen₀) b = some (evs₁, seen₁) →
        evs₀ <+: evs₁ ∧ ∀ ev ∈ evs₁, ev ∈ evs₀ ∨ ev.uid ∉ seen₀) := by
  constructor
  · obtain ⟨st, hfold, hevs⟩ := parse_eq_elim hashFn bricks today dp df ec evs h
    have hinv := foldlM_option_inv (parse_step hashFn ec)
      (fun s => (s.1.map (fun ev => ev.uid)).Nodup ∧
        ∀ u ∈ s.1.map (fun ev => ev.uid), u ∈ s.2)
      (fun s b s' hs hP => by
        rcases parse_step_spec hashFn ec s b s' hs with rfl | ⟨u, hu, hseen, hcase⟩
        · exact hP
        · rcases hcase with heq | ⟨ev0, heq, huid0, _, _⟩
          · refine ⟨by rw [heq]; exact hP.1, fun u' hu' => ?_⟩
            rw [heq] at hu'
            rw [hseen]
            exact List.mem_append.mpr (Or.inl (hP.2 u' hu'))
          · have hnotin : ev0.uid ∉ s.1.map (fun ev => ev.uid) := by
              intro hmem
              rw [huid0] at hmem
              exact hu (hP.2 u hmem)
            refine ⟨?_, fun u' hu' => ?_⟩
            · rw [heq, List.map_append]
              simp only [List.map_cons, List.map_nil]
              rw [List.nodup_append]
              exact ⟨hP.1, List.nodup_singleton _, by
                intro x hx hy
                rcases List.mem_singleton.mp hy with rfl
                exact hnotin hx⟩
            · rw [heq, List.map_append] at hu'
              rw [hseen]
              rcases List.mem_append.mp hu' with h1 | h1
              · exact List.mem_append.mpr (Or.inl (hP.2 u' h1))
              · simp only [List.map_cons, List.map_nil, List.mem_singleton] at h1
                rw [h1, huid0]
                exact List.mem_append.mpr (Or.inr (List.mem_singleton.mpr rfl)))
      bricks ([], []) st hfold (by simp)
    rw [hevs]
    have hperm : (sort_events st.1).Perm st.1 := List.perm_insertionSort event_le st.1
    have h1 : ((sort_events st.1).map (fun ev => ev.uid)).Nodup :=
      ((hperm.map (fun ev => ev.uid)).nodup_iff).mpr hinv.1
    exact List.Nodup.sublist
      (List.Sublist.map (fun ev => ev.uid) (window_filter_sublist dp df today _)) h1
  · intro evs₀ seen₀ b evs₁ seen₁ hstep
    rcases parse_step_spec hashFn ec (evs₀, seen₀) b (evs₁, seen₁) hstep
      with heq | ⟨u, hu, hseen, hcase⟩
    · rw [Prod.mk.injEq] at heq
      obtain ⟨h1, _⟩ := heq
      subst h1
      exact ⟨List.prefix_refl _, fun ev hev => Or.inl hev⟩
    · rcases hcase with heq1 | ⟨ev0, heq1, huid0, _, _⟩
      · have heq1' : evs₁ = evs₀ := heq1
        subst heq1'
        exact ⟨List.prefix_refl _, fun ev hev => Or.inl hev⟩
      · have heq1' : evs₁ = evs₀ ++ [ev0] := heq1
        subst heq1'
        refine ⟨List.prefix_append _ _, fun ev hev => ?_⟩
        rcases List.mem_append.mp hev with h1 | h1
        · exact Or.inl h1
        · rcases List.mem_singleton.mp h1 with rfl
          right
          have huid1 : ev.uid = u := huid0
          rw [huid1]
          exact hu

/-- Claim C7 (status: confirmed).  The extraction result is sorted by the
key (all-day flag, date-or-start, title, uid): every all-day event precedes
every timed event, the ordering is a total preorder realized by a linear
order on keys, sorting the result again with the same key leaves it
unchanged, and the output order is a pure function of the input. -/
theorem parse_result_sorted (hashFn : Str → Str) (bricks : List Brick) (today : Date)
    (dp df : Option Int) (ec : Bool) (evs : List LectioEvent)
    (h : parse_lectio_advanced_schedule_bricks hashFn bricks today dp df ec = some evs) :
    evs.Pairwise event_le ∧ sort_events evs = evs ∧
    evs.Pairwise (fun a b => a.all_day_date = none → b.all_day_date = none) := by
  obtain ⟨st, hfold, hevs⟩ := parse_eq_elim hashFn bricks today dp df ec evs h
  have hsorted : (sort_events st.1).Pairwise event_le :=
    List.sorted_insertionSort event_le st.1
  have hevs_sorted : evs.Pairwise event_le := by
    rw [hevs]
    exact List.Pairwise.sublist (window_filter_sublist dp df today _) hsorted
  refine ⟨hevs_sorted, List.Sorted.insertionSort_eq hevs_sorted, ?_⟩
  refine hevs_sorted.imp ?_
  intro a b hab hnone
  by_contra hb
  have hbs : b.all_day_date.isSome := Option.ne_none_iff_isSome.mp hb
  unfold event_le sort_key at hab
  rw [if_neg (by simp [LectioEvent.is_all_day, hnone]),
    if_pos (by simp [LectioEvent.is_all_day, hbs])] at hab
  rw [Prod.Lex.le_iff] at hab
  rcases hab with h1 | ⟨h1, _⟩
  · have h2 : (1 : Int) < 0 := h1
    omega
  · have h2 : (1 : Int) = 0 := h1
    omega

/-- Claim C8 (status: confirmed).  With both bounds unset the date-window
filter is the identity; with bounds given it keeps exactly the events whose
effective date (all-day date, or the calendar date of `start`) lies in the
inclusive window `[today - daysPast, today + daysFuture]`. -/
theorem window_filter_spec (today : Date) :
    (∀ evs, window_filter none none today evs = evs) ∧
    (∀ (p f : Int) (evs : List LectioEvent) (ev : LectioEvent),
      ev ∈ window_filter (some p) (some f) today evs ↔
        ev ∈ evs ∧ ∃ d, event_date ev = some d ∧
          (today.addDays (-p)).toDays ≤ d.toDays ∧ d.toDays ≤ (today.addDays f).toDays) := by
  constructor
  · intro evs
    simp [window_filter]
  · intro p f evs ev
    unfold window_filter
    rw [if_pos (Or.inl (by simp))]
    rw [List.mem_filter]
    simp only [Option.getD_some]
    constructor
    · rintro ⟨hmem, hpred⟩
      refine ⟨hmem, ?_⟩
      cases hd : event_date ev with
      | none => rw [hd] at hpred; exact absurd hpred (by simp)
      | some d =>
        rw [hd] at hpred
        simp only [decide_eq_true_eq] at hpred
        exact ⟨d, rfl, hpred.1, hpred.2⟩
    · rintro ⟨hmem, d, hd, h1, h2⟩
      refine ⟨hmem, ?_⟩
      rw [hd]
      simp only [decide_eq_true_eq]
      exact ⟨h1, h2⟩

/-- Witness for C8 at the spec's example: `daysPast = 7`, `daysFuture =
90`, `today = 2026-02-26` — an event dated 2026-02-19 is kept, one dated
2026-02-18 is dropped, and the both-bounds-unset filter passes the list
through unchanged. -/
theorem window_filter_spec_witness :
    window_filter none none today0 [ev_feb19, ev_feb18] = [ev_feb19, ev_feb18] ∧
    ev_feb19 ∈ window_filter (some 7) (some 90) today0 [ev_feb19, ev_feb18] ∧
    ev_feb18 ∉ window_filter (some 7) (some 90) today0 [ev_feb19, ev_feb18] := by
  refine ⟨(window_filter_spec today0).1 [ev_feb19, ev_feb18], ?_, ?_⟩
  · exact ((window_filter_spec today0).2 7 90 [ev_feb19, ev_feb18] ev_feb19).mpr
      ⟨by decide, ⟨2026, 2, 19⟩, by decide, by decide, by decide⟩
  · intro hmem
    obtain ⟨-, d, hd, h1, -⟩ :=
      ((window_filter_spec today0).2 7 90 [ev_feb19, ev_feb18] ev_feb18).mp hmem
    have hd0 : event_date ev_feb18 = some ⟨2026, 2, 18⟩ := by decide
    rw [hd0] at hd
    injection hd with hd
    subst hd
    exact absurd h1 (by decide)

theorem bytesLen_flatten (xs : List Str) : bytesLen xs.flatten = (xs.map bytesLen).sum := by
  induction xs with
  | nil => rfl
  | cons a rest ih => simp [List.flatten_cons, bytesLen_append, ih]

theorem bytesLen_le_intercalate (sep : Str) (xs : List Str) :
    bytesLen xs.flatten ≤ bytesLen (List.intercalate sep xs) := by
  induction xs with
  | nil => simp [List.intercalate]
  | cons a rest ih =>
    cases rest with
    | nil => simp [List.intercalate, List.intersperse]
    | cons b rest2 =>
      have hx : List.intercalate sep (a :: b :: rest2)
          = a ++ (sep ++ List.intercalate sep (b :: rest2)) := by
        simp [List.intercalate, List.intersperse]
      rw [hx]
      simp only [List.flatten_cons, bytesLen_append] at ih ⊢
      omega

/-- A folded line that equals a short string must be that string unfolded:
folding only rearranges characters (adding separators), so a long input
cannot fold to something of at most 75 octets. -/
theorem fold_eq_short (l s : Str) (hs : bytesLen s ≤ 75) (h : fold_75_octets l = s) :
    l = s := by
  by_cases hle : bytesLen l ≤ 75
  · rw [← h]
    unfold fold_75_octets
    rw [show fold75_segments l = [l] by simp [fold75_segments, hle]]
    simp [List.intercalate, List.intersperse]
  · exfalso
    have h1 : bytesLen l ≤ bytesLen (fold_75_octets l) := by
      unfold fold_75_octets
      calc bytesLen l = bytesLen (fold75_segments l).flatten := by
            rw [fold75_segments_flatten]
        _ ≤ _ := bytesLen_le_intercalate _ _
    rw [h] at h1
    omega

theorem prop_ne_status (nm v : Str) (h : ("STATUS:CANCELLED".toList) = prop nm v)
    (hlen : 2 ≤ nm.length) (h2 : nm.take 2 ≠ ("ST".toList)) : False := by
  have h3 := fold_eq_short (nm ++ ':' :: v) _ (by decide) h.symm
  apply h2
  have h4 : (nm ++ ':' :: v).take 2 = nm.take 2 := List.take_append_of_le_length hlen
  rw [← h4, h3]
  decide

theorem prop_param_ne_status (nm param v : Str)
    (h : ("STATUS:CANCELLED".toList) = prop_param nm param v)
    (hlen : 2 ≤ nm.length) (h2 : nm.take 2 ≠ ("ST".toList)) : False := by
  have h3 := fold_eq_short (nm ++ ';' :: (param ++ ':' :: v)) _ (by decide) h.symm
  apply h2
  have h4 : (nm ++ ';' :: (param ++ ':' :: v)).take 2 = nm.take 2 :=
    List.take_append_of_le_length hlen
  rw [← h4, h3]
  decide

theorem status_line_mem (stamp : Str) (ev : LectioEvent)
    (hst : ev.status = ("CANCELLED".toList)) :
    ("STATUS:CANCELLED".toList) ∈ event_lines stamp ev := by
  have hsv : event_status_value ev = ("CANCELLED".toList) := by
    simp only [event_status_value, hst]
    decide
  have htarget : ("STATUS:CANCELLED".toList) = prop ("STATUS".toList) ("CANCELLED".toList) := by
    decide
  rw [htarget]
  simp only [event_lines, hsv, if_true]
  split
  · split
    · simp
    · simp
  · split
    · simp
    · simp

theorem status_line_not_mem (stamp : Str) (ev : LectioEvent)
    (hst : ev.status = ("CONFIRMED".toList)) :
    ("STATUS:CANCELLED".toList) ∉ event_lines stamp ev := by
  have hsv : event_status_value ev = ("CONFIRMED".toList) := by
    simp only [event_status_value, hst]
    decide
  intro hmem
  simp only [event_lines, hsv] at hmem
  rw [if_neg (by decide : ¬ (("CONFIRMED".toList) = ("CANCELLED".toList))),
    List.append_nil] at hmem
  split at hmem
  · split at hmem
    · simp only [List.mem_append, List.mem_cons, List.not_mem_nil, or_false, false_or,
        or_assoc] at hmem
      rcases hmem with h | h | h | h | h
      · exact absurd h (by decide)
      · exact prop_ne_status _ _ h (by decide) (by decide)
      · exact prop_ne_status _ _ h (by decide) (by decide)
      · exact prop_ne_status _ _ h (by decide) (by decide)
      · exact absurd h (by decide)
    · split at hmem
      · simp only [List.mem_append, List.mem_cons, List.not_mem_nil, or_false, false_or,
          or_assoc] at hmem
        rcases hmem with h | h | h | h | h | h | h | h | h
        · exact absurd h (by decide)
        · exact prop_ne_status _ _ h (by decide) (by decide)
        · exact prop_ne_status _ _ h (by decide) (by decide)
        · exact prop_ne_status _ _ h (by decide) (by decide)
        · exact prop_param_ne_status _ _ _ h (by decide) (by decide)
        · exact prop_param_ne_status _ _ _ h (by decide) (by decide)
        · exact prop_ne_status _ _ h (by decide) (by decide)
        · exact prop_ne_status _ _ h (by decide) (by decide)
        · exact absurd h (by decide)
      · simp only [List.mem_append, List.mem_cons, List.not_mem_nil, or_false, false_or,
          or_assoc] at hmem
        rcases hmem with h | h | h | h | h | h | h | h
        · exact absurd h (by decide)
        · exact prop_ne_status _ _ h (by decide) (by decide)
        · exact prop_ne_status _ _ h (by decide) (by decide)
        · exact prop_ne_status _ _ h (by decide) (by decide)
        · exact prop_param_ne_status _ _ _ h (by decide) (by decide)
        · exact prop_param_ne_status _ _ _ h (by decide) (by decide)
        · exact prop_ne_status _ _ h (by decide) (by decide)
        · exact absurd h (by decide)
  · split at hmem
    · split at hmem
      · simp only [List.mem_append, List.mem_cons, List.not_mem_nil, or_false, false_or,
          or_assoc] at hmem
        rcases hmem with h | h | h | h | h | h | h | h | h
        · exact absurd h (by decide)
        · exact prop_ne_status _ _ h (by decide) (by decide)
        · exact prop_ne_status _ _ h (by decide) (by decide)
        · exact prop_ne_status _ _ h (by decide) (by decide)
        · exact prop_ne_status _ _ h (by decide) (by decide)
        · exact prop_ne_status _ _ h (by decide) (by decide)
        · exact prop_ne_status _ _ h (by decide) (by decide)
        · exact prop_ne_status _ _ h (by decide) (by decide)
        · exact absurd h (by decide)
      · simp only [List.mem_append, List.mem_cons, List.not_mem_nil, or_false, false_or,
          or_assoc] at hmem
        rcases hmem with h | h | h | h | h | h | h | h
        · exact absurd h (by decide)
        · exact prop_ne_status _ _ h (by decide) (by decide)
        · exact prop_ne_status _ _ h (by decide) (by decide)
        · exact prop_ne_status _ _ h (by decide) (by decide)
        · exact prop_ne_status _ _ h (by decide) (by decide)
        · exact prop_ne_status _ _ h (by decide) (by decide)
        · exact prop_ne_status _ _ h (by decide) (by decide)
        · exact absurd h (by decide)
    · simp only [List.mem_append, List.mem_cons, List.not_mem_nil, or_false, false_or,
        or_assoc] at hmem
      rcases hmem with h | h | h | h | h
      · exact absurd h (by decide)
      · exact prop_ne_status _ _ h (by decide) (by decide)
      · exact prop_ne_status _ _ h (by decide) (by decide)
      · exact prop_ne_status _ _ h (by decide) (by decide)
      · exact absurd h (by decide)

theorem parse_step_cancelled_dropped (hashFn : Str → Str)
    (st : List LectioEvent × List Str) (b : Brick)
    (hc : is_cancelled_event (normalize_text (b.data_tooltip.getD []))
      (normalize_text b.content_text) b.classes = true) :
    parse_step hashFn false st b = some st := by
  simp only [parse_step]
  split
  · rfl
  · rw [if_pos (by simp [hc])]

/-- Claim C9 (status: confirmed).  Cancellation policy end to end: with
`emitCancelled` false a brick detected as cancelled leaves the state
untouched (it is dropped) and every returned event is CONFIRMED; with
`emitCancelled` true a cancelled brick can only add events whose status is
CANCELLED; and the serializer emits the `STATUS:CANCELLED` line exactly
for events with status CANCELLED, omitting any STATUS property for
CONFIRMED events. -/
theorem cancelled_policy (hashFn : Str → Str) :
    (∀ (st : List LectioEvent × List Str) (b : Brick),
      is_cancelled_event (normalize_text (b.data_tooltip.getD []))
          (normalize_text b.content_text) b.classes = true →
      parse_step hashFn false st b = some st) ∧
    (∀ (bricks : List Brick) (today : Date) (dp df : Option Int) (evs : List LectioEvent),
      parse_lectio_advanced_schedule_bricks hashFn bricks today dp df false = some evs →
      ∀ ev ∈ evs, ev.status = ("CONFIRMED".toList)) ∧
    (∀ (st : List LectioEvent × List Str) (b : Brick) (st' : List LectioEvent × List Str),
      is_cancelled_event (normalize_text (b.data_tooltip.getD []))
          (normalize_text b.content_text) b.classes = true →
      parse_step hashFn true st b = some st' →
      ∀ ev ∈ st'.1, ev ∈ st.1 ∨ ev.status = ("CANCELLED".toList)) ∧
    (∀ (stamp : Str) (ev : LectioEvent),
      (ev.status = ("CANCELLED".toList) →
        ("STATUS:CANCELLED".toList) ∈ event_lines stamp ev) ∧
      (ev.status = ("CONFIRMED".toList) →
        ("STATUS:CANCELLED".toList) ∉ event_lines stamp ev)) := by
  refine ⟨parse_step_cancelled_dropped hashFn, ?_, ?_, ?_⟩
  · intro bricks today dp df evs h
    obtain ⟨st, hfold, hevs⟩ := parse_eq_elim hashFn bricks today dp df false evs h
    have hinv := foldlM_option_inv (parse_step hashFn false)
      (fun s => ∀ ev ∈ s.1, ev.status = ("CONFIRMED".toList))
      (fun s b s' hs hP => by
        rcases parse_step_spec hashFn false s b s' hs with rfl | ⟨u, hu, hseen, hcase⟩
        · exact hP
        · rcases hcase with heq | ⟨ev0, heq, _, _, _, hconf, _⟩
          · intro ev hev
            rw [heq] at hev
            exact hP ev hev
          · intro ev hev
            rw [heq] at hev
            rcases List.mem_append.mp hev with h1 | h1
            · exact hP ev h1
            · rcases List.mem_singleton.mp h1 with rfl
              exact hconf rfl)
      bricks ([], []) st hfold (by simp)
    intro ev hev
    exact hinv ev (mem_parse_result hashFn bricks today dp df false evs st hfold hevs ev hev)
  · intro st b st' hc hs
    rcases parse_step_spec hashFn true st b st' hs with rfl | ⟨u, hu, hseen, hcase⟩
    · exact fun ev hev => Or.inl hev
    · rcases hcase with heq | ⟨ev0, heq, _, _, _, _, hcanc⟩
      · intro ev hev
        rw [heq] at hev
        exact Or.inl hev
      · intro ev hev
        rw [heq] at hev
        rcases List.mem_append.mp hev with h1 | h1
        · exact Or.inl h1
        · rcases List.mem_singleton.mp h1 with rfl
          exact Or.inr (hcanc hc)
  · intro stamp ev
    exact ⟨status_line_mem stamp ev, status_line_not_mem stamp ev⟩

/-- Witness for C5 on a concrete three-brick parse (one timed brick, a
duplicate of it, and an all-day brick). -/
theorem events_exactly_one_shape_witness :
    parse_lectio_advanced_schedule_bricks hash0 demo_bricks today0 none none false
      = some demo_events ∧
    ∀ ev ∈ demo_events,
      (ev.all_day_date.isSome → ev.start = none ∧ ev.«end» = none) ∧
      (ev.all_day_date = none → ev.start.isSome ∧ ev.«end».isSome) :=
  ⟨by decide,
   events_exactly_one_shape hash0 demo_bricks today0 none none false demo_events (by decide)⟩

/-- Witness for C6: the duplicate brick of `demo_bricks` is dropped and
the returned uids are pairwise distinct. -/
theorem parse_uids_nodup_witness :
    parse_lectio_advanced_schedule_bricks hash0 demo_bricks today0 none none false
      = some demo_events ∧
    (demo_events.map (fun ev => ev.uid)).Nodup :=
  ⟨by decide,
   (parse_uids_nodup hash0 demo_bricks today0 none none false demo_events (by decide)).1⟩

/-- Witness for C7: the concrete result is sorted and re-sorting leaves it
unchanged. -/
theorem parse_result_sorted_witness :
    parse_lectio_advanced_schedule_bricks hash0 demo_bricks today0 none none false
      = some demo_events ∧
    sort_events demo_events = demo_events :=
  ⟨by decide,
   (parse_result_sorted hash0 demo_bricks today0 none none false demo_events (by decide)).2.1⟩

/-- Witness for C9: the cancelled brick is detected, its `parse_step` with
emission enabled yields only CANCELLED events, and the serializer's STATUS
emission matches the status of concrete events. -/
theorem cancelled_policy_witness :
    parse_step hash0 false ([], []) brick_cancelled = some ([], []) ∧
    (∀ ev ∈ cancelled_step_result.1,
      ev ∈ ([] : List LectioEvent) ∨ ev.status = ("CANCELLED".toList)) ∧
    ("STATUS:CANCELLED".toList) ∈ event_lines stamp0 ev_cancelled ∧
    ("STATUS:CANCELLED".toList) ∉ event_lines stamp0 c1_event :=
  ⟨(cancelled_policy hash0).1 ([], []) brick_cancelled (by decide),
   (cancelled_policy hash0).2.2.1 ([], []) brick_cancelled cancelled_step_result
     (by decide) (by decide),
   ((cancelled_policy hash0).2.2.2 stamp0 ev_cancelled).1 (by decide),
   ((cancelled_policy hash0).2.2.2 stamp0 c1_event).2 (by decide)⟩

end LectioSync
